import Mathlib

set_option linter.unusedVariables false

/-!
Verification development for the `kaggle_utils` repository
(`src/ds_utils/evaluate.py`).

The Python source is shallowly embedded here.  Conventions used throughout:

* numpy float arrays become `List ℚ` (exact rational arithmetic stands in
  for IEEE doubles: every operation the claims mention is `+`, `*`, `/` on
  small values, where float and rational behaviour agree structurally);
  the one place where an IEEE special value genuinely appears (division of
  a zero buffer by `len([]) = 0` in `EnsembleRegressor.predict`) is
  modelled with the `PFloat` type, which carries `nan`/`inf` explicitly;
* 2-d feature arrays become `Mat := List (List ℚ)` (a list of rows);
* a scikit-learn style model is an opaque mutable object; its behaviour is
  an abstract `ModelRule : Option (Mat × Vec) → Mat → Vec` mapping the
  currently fitted state (`none` = unfitted, `some (xtrain, ytrain)` =
  state produced by the last `fit` call) and a query matrix to a
  prediction vector;
* Python exceptions become `Except PyErr`; functions that can raise return
  `Except PyErr α`, those that cannot are total;
* `sklearn.utils.shuffle(x, y, random_state=r)` draws a deterministic
  permutation from the seed; the PRNG itself is not re-implemented, it is
  an explicit oracle parameter `π : Nat → Nat → List Nat` mapping
  `(seed, n)` to the row permutation used (sklearn's PRNG is a
  deterministic function of exactly these data);
* `sklearn.model_selection.KFold(n_splits=folds, random_state=s)` keeps
  its default `shuffle=False`, under which (in the sklearn versions
  contemporary with this source) the `random_state` argument is ignored
  and `split` deterministically yields `folds` contiguous blocks of
  indices, the first `n % folds` of size `n / folds + 1` and the rest of
  size `n / folds`; that deterministic splitter is embedded directly.
-/

/-- Rows of a numpy 1-d float array, as exact rationals. -/
abbrev Vec : Type := List ℚ

/-- A 2-d numpy array: a list of rows. -/
abbrev Mat : Type := List (List ℚ)

/-- Behaviour of a duck-typed scikit-learn model: given the fitted state
left by the most recent `fit` call (`none` if never fitted) and a query
matrix, produce the prediction vector.  `model.fit(xt, yt)` sets the state
to `some (xt, yt)`; `model.predict(q)` evaluates the rule at the current
state. -/
abbrev ModelRule : Type := Option (Mat × Vec) → Mat → Vec

/-- The Python exceptions relevant to this module, plus the
`ConvergenceError` the specification asks for (the source never raises
it; it is part of the error taxonomy so that claims about it can be
stated). -/
inductive PyErr where
  | typeError
  | valueError
  | indexError
  | convergenceError
deriving DecidableEq, Repr

/-- A float value as numpy produces it: an ordinary (here: rational)
number or one of the IEEE special values that arise from division by
zero. -/
inductive PFloat where
  | num (q : ℚ)
  | nan
  | inf
  | ninf
deriving DecidableEq, Repr

/-- numpy elementwise float addition on `PFloat` values. -/
def PFloat.add : PFloat → PFloat → PFloat
  | .nan, _ => .nan
  | _, .nan => .nan
  | .inf, .ninf => .nan
  | .ninf, .inf => .nan
  | .inf, _ => .inf
  | _, .inf => .inf
  | .ninf, _ => .ninf
  | _, .ninf => .ninf
  | .num a, .num b => .num (a + b)

/-- numpy float division of a value by a Python `int` (the divisor
`len(self.models)` in `EnsembleRegressor.predict`).  Division by zero
does not raise: numpy emits a runtime warning and produces `nan`
(for `0/0`) or a signed infinity. -/
def PFloat.divNat : PFloat → Nat → PFloat
  | .num q, 0 => if q = 0 then .nan else if 0 < q then .inf else .ninf
  | .nan, 0 => .nan
  | .inf, 0 => .inf
  | .ninf, 0 => .ninf
  | .num q, (k+1) => .num (q / ((k : ℚ) + 1))
  | .nan, _+1 => .nan
  | .inf, _+1 => .inf
  | .ninf, _+1 => .ninf

/-- `ds_utils/evaluate.py`, class `EnsembleRegressor` (line 136): it holds
the list of collected models.  For prediction purposes a stored member is
its `predict` method, a function from a feature matrix to a vector. -/
structure EnsembleRegressor where
  models : List (Mat → Vec)

/-- `EnsembleRegressor.predict` (lines 141-146):

    total = np.zeros(len(x))
    for model in self.models:
        total += model.predict(x)
    total /= len(self.models)
    return total

`total += model.predict(x)` raises `ValueError` if the model's prediction
does not broadcast against the buffer; `total /= len(self.models)` never
raises (numpy division by zero yields `nan` entries and a warning). -/
def EnsembleRegressor.predict (e : EnsembleRegressor) (x : Mat) :
    Except PyErr (List PFloat) :=
  match e.models.foldlM (fun t m =>
      if (m x).length = t.length then
        Except.ok (List.zipWith PFloat.add t ((m x).map PFloat.num))
      else Except.error PyErr.valueError)
    (List.replicate x.length (PFloat.num 0)) with
  | .error err => .error err
  | .ok total => .ok (total.map (fun v => v.divNat e.models.length))

/-- Spec 4.3: the elementwise arithmetic mean of the member predictions,
written directly from the specification's words ("computes predictions
from every model in the ensemble and returns their arithmetic mean,
elementwise"). -/
def ensembleMeanSpec (ms : List (Mat → Vec)) (x : Mat) : List ℚ :=
  (List.range x.length).map
    (fun j => ((ms.map (fun m => (m x).getD j 0)).sum) / (ms.length : ℚ))

/-- The value of Python's builtin `sum` while it folds numpy row vectors:
it starts from the `int` `0` and broadcasts on the first addition. -/
inductive PySum where
  | z
  | v (xs : List ℚ)
deriving DecidableEq, Repr

/-- One step of `sum(...)` over numpy rows: `0 + row` broadcasts to the
row, `vec + row` adds elementwise. -/
def PySum.add : PySum → List ℚ → PySum
  | .z, b => .v b
  | .v a, b => .v (List.zipWith (· + ·) a b)

/-- Collapse the accumulated `sum` back to a vector (`.z` only happens
when the generator is empty, in which case Python's `sum` is the scalar
`0`; the claims quantify over non-empty prediction lists). -/
def PySum.toVec : PySum → List ℚ
  | .z => []
  | .v a => a

/-- `evaluate_ensemble_weights` (lines 282-295):

    y_pred = sum(x * y for x, y in zip(model_preds, weights))
    return -1 * metric(y_test, y_pred) if maximize else metric(y_test, y_pred)
-/
def evaluate_ensemble_weights (weights : List ℚ) (model_preds : List Vec)
    (y_test : Vec) (metric : Vec → Vec → ℚ) (maximize : Bool) : ℚ :=
  let y_pred :=
    (((model_preds.zip weights).map
        (fun xy => xy.1.map (· * xy.2))).foldl PySum.add PySum.z).toVec
  if maximize then -1 * metric y_test y_pred else metric y_test y_pred

/-- Spec 4.4: "the weighted sum of per-model predictions", i.e.
`Σᵢ wᵢ · Pᵢ`, written from the specification's words (`n` is the common
row count of the prediction vectors). -/
def weightedSumSpec (w : List ℚ) (P : List Vec) (n : Nat) : Vec :=
  (List.zipWith (fun wi Pi => Pi.map (wi * ·)) w P).foldl
    (List.zipWith (· + ·)) (List.replicate n 0)

/-- The unevaluated Python generator expression
`(model.predict(x_test) for model in ensemble.models)`: it captures the
member list and the argument and has produced nothing yet. -/
structure PyGen where
  models : List (Mat → Vec)
  arg : Mat

/-- The result of `np.array(...)` applied to a generator object: numpy
does not iterate the generator, it wraps it in a 0-dimensional object
array. -/
inductive NpObj where
  | gen0d (g : PyGen)

/-- `np.array` on a generator expression (line 310 of the source). -/
def npArrayOfGen (g : PyGen) : NpObj := .gen0d g

/-- Python `len` of a numpy object array: a 0-d array is unsized, so
`len` raises `TypeError: len() of unsized object`. -/
def npObjLen : NpObj → Except PyErr Nat
  | .gen0d _ => .error .typeError

/-- The value `scipy.optimize.minimize` returns: the solution vector and
the convergence flag.  The solver itself is an oracle parameter of the
embedding. -/
structure OptResult where
  x : List ℚ
  success : Bool

/-- Observable outcome of `optimize_ensemble`: the returned value (or the
exception) together with how many times `model.predict` was evaluated on
`x_test`. -/
structure OptOutcome where
  result : Except PyErr (List ℚ)
  predictCalls : Nat

/-- `optimize_ensemble` (lines 298-318):

    model_preds = np.array((model.predict(x_test) for model in ensemble.models))
    x0 = np.ones(len(model_preds))
    ...
    optimized = minimize(evaluate_ensemble_weights, x0, ...)
    return optimized.x

`np.array` over the generator produces a 0-d object array without
consuming the generator, so no `model.predict` call ever runs, and the
next line's `len(model_preds)` raises `TypeError`.  The remainder of the
source (bounds, the simplex constraint, the `minimize` call, and the
unconditional `return optimized.x`) is therefore unreachable; it is still
embedded below the `len` check, with the solver as an oracle, and —
exactly as in the source — the `success` flag of the solver result is
never consulted. -/
def optimize_ensemble (solver : List ℚ → OptResult)
    (models : List (Mat → Vec)) (x_test : Mat) (y_test : Vec)
    (metric : Vec → Vec → ℚ) (metric_max_better : Bool) : OptOutcome :=
  let model_preds := npArrayOfGen ⟨models, x_test⟩
  match npObjLen model_preds with
  | .error e => { result := .error e, predictCalls := 0 }
  | .ok k =>
      let x0 : List ℚ := List.replicate k 1
      let optimized := solver x0
      { result := .ok optimized.x, predictCalls := 0 }

/-- numpy fancy indexing `l[idxs]`: gather the entries of `l` at the
given index list (indices produced by the splitter are always in
bounds; out-of-range reads fall back to `d`). -/
def gather (l : List α) (d : α) (idxs : List Nat) : List α :=
  idxs.map (fun i => l.getD i d)

/-- numpy fancy-index assignment `buf[idxs] = vals`: set the positions
listed in `idxs` to the corresponding entries of `vals`. -/
def writeAtIdx (buf : Vec) (idxs : List Nat) (vals : Vec) : Vec :=
  (idxs.zip vals).foldl (fun b iv => b.set iv.1 iv.2) buf

/-- `sklearn.utils.shuffle(x, y, random_state=r)`: one permutation is
drawn from the seed and applied jointly to the rows of `x` and the
entries of `y`.  `π` is the deterministic PRNG oracle. -/
def shuffleXY (π : Nat → Nat → List Nat) (seed : Nat) (x : Mat) (y : Vec) :
    Mat × Vec :=
  let p := π seed x.length
  (gather x [] p, gather y 0 p)

/-- Size of fold `i` under `KFold(n_splits=k)` on `n` samples: the first
`n % k` folds get `n / k + 1` samples, the rest `n / k`. -/
def foldSize (n k i : Nat) : Nat :=
  n / k + if i < n % k then 1 else 0

/-- First row index of fold `i` (the folds are contiguous blocks). -/
def foldStart (n k i : Nat) : Nat :=
  i * (n / k) + min i (n % k)

/-- Held-out (test) indices of fold `i`: the contiguous block
`[foldStart, foldStart + foldSize)`. -/
def testIdx (n k i : Nat) : List Nat :=
  List.range' (foldStart n k i) (foldSize n k i)

/-- Training indices of fold `i`: every row index outside the test
block, in increasing order. -/
def trainIdx (n k i : Nat) : List Nat :=
  (List.range n).filter
    (fun j => decide (j < foldStart n k i) ||
              decide (foldStart n k i + foldSize n k i ≤ j))

/-- `KFold(n_splits=k).split(x)` on `n = len(x)` samples: the sequence of
`(train_ind, test_ind)` pairs.  With the default `shuffle=False` the
`random_state` argument passed by the source is ignored, so the splits
depend on `(n, k)` only. -/
def kfoldSplits (n k : Nat) : List (List Nat × List Nat) :=
  (List.range k).map (fun i => (trainIdx n k i, testIdx n k i))

/-- The loop state of `cross_validate`: the (re-bound) data `x, y`, the
prediction buffer `y_pred` and the per-repeat score array. -/
structure CVState where
  x : Mat
  y : Vec
  buf : Vec
  scores : List ℚ
deriving Repr

/-- Body of one fold of `cross_validate` (lines 120-126):

    x_train, y_train = x[train_ind, :], y[train_ind]
    x_test, y_test = x[test_ind, :], y[test_ind]
    model.fit(x_train, y_train)
    y_pred[test_ind] = model.predict(x_test)

`model.fit` followed immediately by `model.predict` evaluates the model
rule at the state `some (x_train, y_train)`. -/
def foldStep (model : ModelRule) (x : Mat) (y : Vec) (buf : Vec)
    (split : List Nat × List Nat) : Vec :=
  let xtr := gather x [] split.1
  let ytr := gather y 0 split.1
  let xte := gather x [] split.2
  writeAtIdx buf split.2 (model (some (xtr, ytr)) xte)

/-- The inner fold loop of `cross_validate`: run every `KFold` split over
the prediction buffer. -/
def foldPass (model : ModelRule) (folds : Nat) (x : Mat) (y : Vec)
    (buf : Vec) : Vec :=
  (kfoldSplits x.length folds).foldl (foldStep model x y) buf

/-- One repeat of `cross_validate` (lines 115-127): shuffle `x, y` with
seed `r` (re-binding them for all later repeats), run the fold loop, and
store `metric(y_pred, y)` in `score[r]`. -/
def cvRepeat (π : Nat → Nat → List Nat) (model : ModelRule)
    (metric : Vec → Vec → ℚ) (folds : Nat) (st : CVState) (r : Nat) :
    CVState :=
  let xy := shuffleXY π r st.x st.y
  let buf := foldPass model folds xy.1 xy.2 st.buf
  { x := xy.1, y := xy.2, buf := buf,
    scores := st.scores.set r (metric buf xy.2) }

/-- `for r in range(R)` over `cvRepeat`, from an arbitrary start state. -/
def cvIter (π : Nat → Nat → List Nat) (model : ModelRule)
    (metric : Vec → Vec → ℚ) (folds : Nat) (init : CVState) (R : Nat) :
    CVState :=
  (List.range R).foldl (cvRepeat π model metric folds) init

/-- The initial state of `cross_validate`:
`y_pred = np.zeros(len(y))`, `score = np.zeros(repeats)`. -/
def cvInit (repeats : Nat) (x : Mat) (y : Vec) : CVState :=
  ⟨x, y, List.replicate y.length 0, List.replicate repeats 0⟩

/-- The whole repeat loop of `cross_validate`. -/
def cvLoop (π : Nat → Nat → List Nat) (model : ModelRule)
    (metric : Vec → Vec → ℚ) (folds repeats : Nat) (x : Mat) (y : Vec) :
    CVState :=
  cvIter π model metric folds (cvInit repeats x y) repeats

/-- A numpy value as it flows through the tail of `cross_validate`: a
0-dimensional scalar (what `np.mean` of a 1-d array produces) or a 1-d
array. -/
inductive NpVal where
  | scalar (v : PFloat)
  | arr (xs : List ℚ)
deriving Repr

/-- `np.mean` of a 1-d array: always a 0-d scalar (`nan` on an empty
array). -/
def npMean (l : List ℚ) : NpVal :=
  .scalar (if l.length = 0 then .nan else .num (l.sum / (l.length : ℚ)))

/-- Python `len` of a numpy value: defined for arrays, raises
`TypeError: object of type numpy.float64 has no len()` on a 0-d
scalar. -/
def npLen : NpVal → Except PyErr Nat
  | .scalar _ => .error .typeError
  | .arr xs => .ok xs.length

/-- Indexing `v[0]` on a numpy value (only reachable on arrays). -/
def npGetZero : NpVal → Except PyErr NpVal
  | .scalar _ => .error .typeError
  | .arr [] => .error .indexError
  | .arr (a :: _) => .ok (.scalar (.num a))

/-- The return statement of `cross_validate` (line 133):

    return mean[0] if len(mean) > 1 else mean
-/
def cvReturn (mean : NpVal) : Except PyErr NpVal :=
  match npLen mean with
  | .error e => .error e
  | .ok k => if 1 < k then npGetZero mean else .ok mean

/-- `cross_validate` (lines 98-133).  `KFold` raises `ValueError` when
`n_splits < 2` or `n_splits > n_samples`; that check happens inside the
first repeat iteration (so not at all when `repeats = 0`), before any
score is produced, and is modelled as an up-front guard.  After the loop,
`mean = np.mean(score)` is a 0-d scalar and the returned expression
calls `len(mean)`. -/
def cross_validate (π : Nat → Nat → List Nat) (model : ModelRule)
    (x : Mat) (y : Vec) (metric : Vec → Vec → ℚ) (folds repeats : Nat) :
    Except PyErr NpVal :=
  if 0 < repeats ∧ (folds < 2 ∨ x.length < folds) then .error .valueError
  else cvReturn (npMean (cvLoop π model metric folds repeats x y).scores)

/-- The cumulative row order of the repeat loop: `composedShuffle r` is
the `(x, y)` pair at the start of the fold loop of repeat `r - 1`, i.e.
the original data with the shuffles of seeds `0 … r-1` applied in
sequence (`composedShuffle 0` is the unshuffled input). -/
def composedShuffle (π : Nat → Nat → List Nat) (x : Mat) (y : Vec) :
    Nat → Mat × Vec
  | 0 => (x, y)
  | r + 1 =>
      shuffleXY π r (composedShuffle π x y r).1 (composedShuffle π x y r).2

/-- The prediction vector that fold `i` writes: the model fitted on the
rows outside fold `i`, evaluated on the rows inside fold `i`. -/
def foldPred (model : ModelRule) (n k : Nat) (x : Mat) (y : Vec)
    (i : Nat) : Vec :=
  model (some (gather x [] (trainIdx n k i), gather y 0 (trainIdx n k i)))
    (gather x [] (testIdx n k i))

/-- The fully-overwritten prediction buffer of one repeat: the per-fold
prediction vectors laid out contiguously in fold order, i.e. aligned
with the row order of `x` and `y`. -/
def allFoldPreds (model : ModelRule) (k : Nat) (x : Mat) (y : Vec) : Vec :=
  ((List.range k).map (foldPred model x.length k x y)).flatten

/-- A reference to a Python model object, identified by the heap cell
that holds its nested mutable fitted state.  `copy.copy` (a shallow
copy) produces a new object whose attributes still reference the same
cells; `copy.deepcopy` would allocate fresh cells. -/
structure ModelRef where
  stateCell : Nat
deriving DecidableEq, Repr

/-- The heap of nested model state: cell id. ↦ fitted state. -/
abbrev Heap : Type := List (Option (Mat × Vec))

/-- The model object passed into `get_cross_validation_models`; its
nested state lives in cell `0` of the heap. -/
def liveModel : ModelRef := ⟨0⟩

/-- `copy.copy(model)`: a new top-level object whose attribute still
points at the same state cell. -/
def copyShallow (m : ModelRef) : ModelRef := ⟨m.stateCell⟩

/-- `model.fit(xt, yt)` for a model whose `fit` updates its nested state
object in place: overwrite the model's state cell. -/
def heapFit (h : Heap) (m : ModelRef) (xt : Mat) (yt : Vec) : Heap :=
  h.set m.stateCell (some (xt, yt))

/-- `model.predict(q)` under the heap model: evaluate the model rule at
the state currently stored in the model's cell. -/
def memberPredict (rule : ModelRule) (h : Heap) (m : ModelRef) (q : Mat) :
    Vec :=
  rule (h.getD m.stateCell none) q

/-- Loop state of `get_cross_validation_models`: the `cross_validate`
state plus the heap and the ensemble's model list. -/
structure GcvState where
  x : Mat
  y : Vec
  buf : Vec
  scores : List ℚ
  heap : Heap
  members : List ModelRef

/-- One fold of `get_cross_validation_models` (lines 172-179): fit the
live model, append `copy.copy(model)` to `ensemble.models`, then write
the live model's test predictions into the buffer. -/
def gcvFoldStep (rule : ModelRule) (x : Mat) (y : Vec)
    (st : Vec × Heap × List ModelRef) (split : List Nat × List Nat) :
    Vec × Heap × List ModelRef :=
  let xtr := gather x [] split.1
  let ytr := gather y 0 split.1
  let xte := gather x [] split.2
  let heap := heapFit st.2.1 liveModel xtr ytr
  let members := st.2.2 ++ [copyShallow liveModel]
  let buf := writeAtIdx st.1 split.2 (memberPredict rule heap liveModel xte)
  (buf, heap, members)

/-- One repeat of `get_cross_validation_models` (lines 167-180). -/
def gcvRepeat (π : Nat → Nat → List Nat) (rule : ModelRule)
    (metric : Vec → Vec → ℚ) (folds : Nat) (st : GcvState) (r : Nat) :
    GcvState :=
  let xy := shuffleXY π r st.x st.y
  let res := (kfoldSplits xy.1.length folds).foldl
    (gcvFoldStep rule xy.1 xy.2) (st.buf, st.heap, st.members)
  { x := xy.1, y := xy.2, buf := res.1,
    scores := st.scores.set r (metric res.1 xy.2),
    heap := res.2.1, members := res.2.2 }

/-- The full loop of `get_cross_validation_models`: the live model starts
unfitted in cell `0`, the ensemble starts empty
(`ensemble = EnsembleRegressor([])`). -/
def gcvRun (π : Nat → Nat → List Nat) (rule : ModelRule)
    (metric : Vec → Vec → ℚ) (folds repeats : Nat) (x : Mat) (y : Vec) :
    GcvState :=
  (List.range repeats).foldl (gcvRepeat π rule metric folds)
    ⟨x, y, List.replicate y.length 0, List.replicate repeats 0, [none], []⟩

/-- The shape of the value a Python function returns: either a bare
ensemble (its member list) or a pair of an ensemble and a score.  This
single type makes the claim "returns a pair, not the ensemble alone"
statable. -/
inductive PyRet where
  | ensR (members : List ModelRef)
  | pairR (members : List ModelRef) (score : ℚ)
deriving DecidableEq, Repr

/-- Whether a returned value is an (ensemble, score) pair. -/
def PyRet.isPair : PyRet → Bool
  | .ensR _ => false
  | .pairR _ _ => true

/-- `get_cross_validation_models` (lines 149-186): same loop as
`cross_validate` with member collection, but its return statement is
`return ensemble` — the ensemble alone (the mean and std of the scores
are only printed). -/
def get_cross_validation_models (π : Nat → Nat → List Nat)
    (rule : ModelRule) (x : Mat) (y : Vec) (metric : Vec → Vec → ℚ)
    (folds repeats : Nat) : Except PyErr PyRet :=
  if 0 < repeats ∧ (folds < 2 ∨ x.length < folds) then .error .valueError
  else .ok (.ensR (gcvRun π rule metric folds repeats x y).members)

/-- Arithmetic mean of a score list, as a rational. -/
def listMeanQ (l : List ℚ) : ℚ := l.sum / (l.length : ℚ)

/-- Modelled from the spec: contract 4.2,
`collect_ensemble(...) -> (Ensemble, mean_score)` — the final ensemble
paired with the arithmetic mean of the per-repeat scores.  The source
function computes both components but returns only the ensemble; this
definition exists to compare the source's return value against the
spec's. -/
def collect_ensemble_spec (π : Nat → Nat → List Nat) (rule : ModelRule)
    (x : Mat) (y : Vec) (metric : Vec → Vec → ℚ) (folds repeats : Nat) :
    List ModelRef × ℚ :=
  ((gcvRun π rule metric folds repeats x y).members,
   listMeanQ (gcvRun π rule metric folds repeats x y).scores)

/-- A model whose `predict` returns the constant `c` for every row
(used to instantiate scenarios from the spec's testable properties). -/
def constModel (c : ℚ) : Mat → Vec := fun q => q.map (fun _ => c)

/-- A concrete model rule: predict, for every query row, the first
training target of the current fitted state (`0` when unfitted). -/
def headTargetRule : ModelRule :=
  fun st q => q.map (fun _ => ((st.getD ([], [])).2).headD 0)

/-- A concrete model rule that ignores the fitted state and predicts `0`
everywhere (enough to exercise the loop plumbing). -/
def zeroRule : ModelRule := fun _ q => q.map (fun _ => 0)

/-- A concrete scalar metric: sum of squared differences. -/
def sqErrMetric : Vec → Vec → ℚ :=
  fun a b => (List.zipWith (fun u v => (u - v) * (u - v)) a b).sum

/-- The identity PRNG oracle: seed `s` on `n` rows yields the identity
permutation (a legitimate concrete instantiation of the shuffle
oracle). -/
def idPerm : Nat → Nat → List Nat := fun _ n => List.range n

/-- A concrete solver oracle that converges at the initial guess. -/
def okSolver : List ℚ → OptResult := fun x0 => { x := x0, success := true }

/-- A concrete solver oracle that fails to converge and hands back its
initial guess unconverged. -/
def failSolver : List ℚ → OptResult := fun x0 => { x := x0, success := false }

/-- Concrete 2-row feature matrix for witnesses. -/
def xTwo : Mat := [[1], [2]]

/-- Concrete 2-entry target vector for witnesses. -/
def yTwo : Vec := [10, 20]

/-! ## Helper lemmas -/

theorem zipWith_padd_num (a b : List ℚ) :
    List.zipWith PFloat.add (a.map PFloat.num) (b.map PFloat.num)
      = (List.zipWith (· + ·) a b).map PFloat.num := by
  induction a generalizing b with
  | nil => simp
  | cons x xs ih => cases b <;> simp [PFloat.add, ih]

theorem getD_zipWith_add (a b : List ℚ) (h : b.length = a.length) (j : Nat) :
    (List.zipWith (· + ·) a b).getD j 0 = a.getD j 0 + b.getD j 0 := by
  induction a generalizing b j with
  | nil => cases b with
    | nil => simp
    | cons y ys => simp at h
  | cons x xs ih =>
      cases b with
      | nil => simp at h
      | cons y ys =>
          cases j with
          | zero => simp
          | succ j => simpa using ih ys (by simpa using h) j

theorem length_zipWith_add (a b : List ℚ) (h : b.length = a.length) :
    (List.zipWith (· + ·) a b).length = a.length := by
  simp [List.length_zipWith, h]

theorem getD_replicate_zero (n j : Nat) :
    (List.replicate n (0 : ℚ)).getD j 0 = 0 := by
  induction n generalizing j with
  | zero => simp
  | succ n ih => cases j <;> simp [List.replicate_succ, ih]

/-- The running sum of member predictions, at the rational level. -/
def sumPreds (x : Mat) (a : List ℚ) (ms : List (Mat → Vec)) : List ℚ :=
  ms.foldl (fun acc m => List.zipWith (· + ·) acc (m x)) a

theorem sumPreds_length (x : Mat) (ms : List (Mat → Vec)) (a : List ℚ)
    (h : ∀ m ∈ ms, (m x).length = a.length) :
    (sumPreds x a ms).length = a.length := by
  induction ms generalizing a with
  | nil => rfl
  | cons m ms ih =>
      have hm : (m x).length = a.length := h m (List.mem_cons_self _ _)
      have hlen := length_zipWith_add a (m x) hm
      simpa [sumPreds, hlen] using
        ih (List.zipWith (· + ·) a (m x))
          (fun m' hm' => by rw [hlen]; exact h m' (List.mem_cons_of_mem _ hm'))

theorem sumPreds_getD (x : Mat) (ms : List (Mat → Vec)) (a : List ℚ)
    (h : ∀ m ∈ ms, (m x).length = a.length) (j : Nat) :
    (sumPreds x a ms).getD j 0
      = a.getD j 0 + (ms.map (fun m => (m x).getD j 0)).sum := by
  induction ms generalizing a with
  | nil => simp [sumPreds]
  | cons m ms ih =>
      have hm : (m x).length = a.length := h m (List.mem_cons_self _ _)
      have hlen := length_zipWith_add a (m x) hm
      have := ih (List.zipWith (· + ·) a (m x))
        (fun m' hm' => by rw [hlen]; exact h m' (List.mem_cons_of_mem _ hm'))
      simp only [sumPreds, List.foldl_cons] at this ⊢
      rw [this, getD_zipWith_add a (m x) hm j]
      simp [add_assoc]

theorem predict_foldlM_ok (x : Mat) (ms : List (Mat → Vec)) (a : List ℚ)
    (h : ∀ m ∈ ms, (m x).length = a.length) :
    (ms.foldlM (fun t m =>
        if (m x).length = t.length then
          Except.ok (List.zipWith PFloat.add t ((m x).map PFloat.num))
        else Except.error PyErr.valueError) (a.map PFloat.num)
      : Except PyErr (List PFloat))
      = .ok ((sumPreds x a ms).map PFloat.num) := by
  induction ms generalizing a with
  | nil => rfl
  | cons m ms ih =>
      have hm : (m x).length = a.length := h m (List.mem_cons_self _ _)
      have hlen := length_zipWith_add a (m x) hm
      have hcond : (m x).length = (a.map PFloat.num).length := by
        simpa using hm
      simp only [List.foldlM_cons, hcond, if_pos, zipWith_padd_num]
      have := ih (List.zipWith (· + ·) a (m x))
        (fun m' hm' => by rw [hlen]; exact h m' (List.mem_cons_of_mem _ hm'))
      simpa [sumPreds] using this

theorem sumPreds_div_eq_mean (ms : List (Mat → Vec)) (x : Mat)
    (hlen : ∀ m ∈ ms, (m x).length = x.length) :
    (sumPreds x (List.replicate x.length 0) ms).map
        (fun q => q / (ms.length : ℚ))
      = ensembleMeanSpec ms x := by
  have hl : ∀ m ∈ ms, (m x).length
      = (List.replicate x.length (0 : ℚ)).length :=
    fun m hm => by rw [hlen m hm, List.length_replicate]
  apply List.ext_getElem
  · simp [sumPreds_length x ms _ hl, ensembleMeanSpec]
  · intro i h1 h2
    have hi : i < (sumPreds x (List.replicate x.length 0) ms).length := by
      simpa using h1
    simp only [List.getElem_map, ensembleMeanSpec, List.getElem_range]
    rw [← List.getD_eq_getElem _ 0 hi, sumPreds_getD x ms _ hl i,
      getD_replicate_zero]
    simp

/-- C7: for every non-empty ensemble whose members each return one
prediction per row of `x`, `EnsembleRegressor.predict` returns the
elementwise arithmetic mean of the members' predictions. -/
theorem ensemble_predict_is_elementwise_mean (e : EnsembleRegressor)
    (x : Mat) (h0 : e.models ≠ [])
    (hlen : ∀ m ∈ e.models, (m x).length = x.length) :
    e.predict x = .ok ((ensembleMeanSpec e.models x).map PFloat.num) := by
  obtain ⟨m0, ms0, hc⟩ : ∃ m0 ms0, e.models = m0 :: ms0 := by
    cases h : e.models with
    | nil => exact absurd h h0
    | cons a l => exact ⟨a, l, rfl⟩
  have hl : ∀ m ∈ e.models, (m x).length
      = (List.replicate x.length (0 : ℚ)).length :=
    fun m hm => by rw [hlen m hm, List.length_replicate]
  have hdiv : ∀ q : ℚ, (PFloat.num q).divNat e.models.length
      = PFloat.num (q / (e.models.length : ℚ)) := by
    intro q
    rw [hc]
    simp [PFloat.divNat]
  have hmap : ((sumPreds x (List.replicate x.length 0) e.models).map
        PFloat.num).map (fun v => v.divNat e.models.length)
      = ((sumPreds x (List.replicate x.length 0) e.models).map
        (fun q => q / (e.models.length : ℚ))).map PFloat.num := by
    simp only [List.map_map]
    exact List.map_congr_left (fun a _ => hdiv a)
  unfold EnsembleRegressor.predict
  have hinit : List.replicate x.length (PFloat.num 0)
      = (List.replicate x.length (0 : ℚ)).map PFloat.num := by
    simp [List.map_replicate]
  rw [hinit, predict_foldlM_ok x e.models _ hl]
  show Except.ok (((sumPreds x (List.replicate x.length 0) e.models).map
      PFloat.num).map (fun v => v.divNat e.models.length))
    = Except.ok ((ensembleMeanSpec e.models x).map PFloat.num)
  rw [hmap, sumPreds_div_eq_mean e.models x hlen]

/-- C7 witness: the spec's scenario — an ensemble of three constant
predictors returning 1, 2 and 3 on a one-row feature matrix predicts
exactly 2. -/
theorem ensemble_predict_is_elementwise_mean_witness :
    (EnsembleRegressor.mk
        [constModel 1, constModel 2, constModel 3]).predict [[0]]
      = .ok [PFloat.num 2] := by
  have h := ensemble_predict_is_elementwise_mean
    (EnsembleRegressor.mk [constModel 1, constModel 2, constModel 3]) [[0]]
    (by simp)
    (by
      intro m hm
      simp only [List.mem_cons, List.not_mem_nil, or_false] at hm
      rcases hm with rfl | rfl | rfl <;> rfl)
  rw [h]
  norm_num [ensembleMeanSpec, constModel, List.range_succ]

/-- C4 (amended): `predict` on the empty ensemble raises nothing — the
zero buffer is divided by `len([]) = 0`, which numpy turns into a
`nan`-filled array of length `len(x)` (plus a runtime warning), returned
normally. -/
theorem predict_empty_ensemble_returns_nan (x : Mat) :
    (EnsembleRegressor.mk []).predict x
      = .ok (List.replicate x.length PFloat.nan) := by
  unfold EnsembleRegressor.predict
  show Except.ok ((List.replicate x.length (PFloat.num 0)).map
      (fun v => v.divNat ([] : List (Mat → Vec)).length)) = _
  simp [List.map_replicate, PFloat.divNat]

/-- C4 counterexample: on a one-row feature matrix, `predict` of the
empty ensemble returns the value `[nan]` instead of failing with an
error, so the claimed `EmptyEnsembleError` is never raised. -/
theorem predict_empty_ensemble_no_error :
    (EnsembleRegressor.mk []).predict [[0]] = .ok [PFloat.nan] := by
  unfold EnsembleRegressor.predict
  show Except.ok ((List.replicate 1 (PFloat.num 0)).map
      (fun v => v.divNat ([] : List (Mat → Vec)).length)) = _
  simp [PFloat.divNat]

theorem zipWith_add_replicate_zero (b : List ℚ) (n : Nat)
    (h : b.length = n) :
    List.zipWith (· + ·) (List.replicate n (0 : ℚ)) b = b := by
  induction b generalizing n with
  | nil => simp
  | cons y ys ih =>
      cases n with
      | zero => simp at h
      | succ n =>
          simp only [List.replicate_succ, List.zipWith_cons_cons, zero_add,
            List.cons.injEq, true_and]
          exact ih n (by simpa using h)

theorem pySum_foldl_v (l : List (List ℚ)) (a : List ℚ) :
    (l.foldl PySum.add (.v a)).toVec
      = l.foldl (List.zipWith (· + ·)) a := by
  induction l generalizing a with
  | nil => rfl
  | cons b bs ih => simp [PySum.add, ih]

theorem pySum_eq_zipAdd_foldl (l : List (List ℚ)) (n : Nat) (h0 : l ≠ [])
    (hl : ∀ v ∈ l, v.length = n) :
    (l.foldl PySum.add PySum.z).toVec
      = l.foldl (List.zipWith (· + ·)) (List.replicate n 0) := by
  cases l with
  | nil => exact absurd rfl h0
  | cons b bs =>
      simp only [List.foldl_cons]
      show (bs.foldl PySum.add (.v b)).toVec = _
      rw [pySum_foldl_v,
        zipWith_add_replicate_zero b n (hl b (List.mem_cons_self _ _))]

theorem zip_map_mul (P : List Vec) (w : List ℚ) :
    (P.zip w).map (fun xy => xy.1.map (· * xy.2))
      = List.zipWith (fun wi Pi => Pi.map (wi * ·)) w P := by
  induction P generalizing w with
  | nil => simp
  | cons p ps ih =>
      cases w with
      | nil => simp
      | cons wi ws =>
          simp only [List.zip_cons_cons, List.map_cons,
            List.zipWith_cons_cons, List.cons.injEq]
          exact ⟨List.map_congr_left (fun a _ => mul_comm a wi), ih ws⟩

/-- C8: the objective used by the weight optimizer evaluates to
`metric(y, Σᵢ wᵢ·Pᵢ)`, negated exactly when `maximize` is true. -/
theorem evaluate_weights_eq_weighted_metric (w : List ℚ) (P : List Vec)
    (y : Vec) (metric : Vec → Vec → ℚ) (maximize : Bool) (n : Nat)
    (hlw : P.length = w.length) (h0 : P ≠ [])
    (hn : ∀ p ∈ P, p.length = n) :
    evaluate_ensemble_weights w P y metric maximize
      = if maximize then -(metric y (weightedSumSpec w P n))
        else metric y (weightedSumSpec w P n) := by
  have hzip : (P.zip w).length = P.length := by
    rw [List.length_zip, hlw, min_self]
  have hmapne : (P.zip w).map (fun xy => xy.1.map (· * xy.2)) ≠ [] := by
    apply List.ne_nil_of_length_pos
    rw [List.length_map, hzip]
    exact List.length_pos.mpr h0
  have hmaplen : ∀ v ∈ (P.zip w).map (fun xy => xy.1.map (· * xy.2)),
      v.length = n := by
    intro v hv
    rcases List.mem_map.mp hv with ⟨xy, hxy, rfl⟩
    rcases List.of_mem_zip hxy with ⟨h1, _⟩
    simpa using hn xy.1 h1
  unfold evaluate_ensemble_weights
  rw [pySum_eq_zipAdd_foldl _ n hmapne hmaplen, zip_map_mul]
  rcases maximize with _ | _
  · rfl
  · show -1 * metric y (weightedSumSpec w P n)
        = -(metric y (weightedSumSpec w P n))
    ring

/-- C8 witness: two members, weights `[1, 2]`, predictions
`[[1, 2], [3, 4]]`; the objective is the negated metric of the weighted
sum `[7, 10]`. -/
theorem evaluate_weights_eq_weighted_metric_witness :
    ([[1, 2], [3, 4]] : List Vec).length = ([1, 2] : List ℚ).length ∧
    evaluate_ensemble_weights [1, 2] [[1, 2], [3, 4]] [0, 0] sqErrMetric true
      = -(sqErrMetric [0, 0] (weightedSumSpec [1, 2] [[1, 2], [3, 4]] 2)) := by
  refine ⟨rfl, ?_⟩
  have h := evaluate_weights_eq_weighted_metric [1, 2] [[1, 2], [3, 4]]
    [0, 0] sqErrMetric true 2 rfl (by simp)
    (by
      intro p hp
      simp only [List.mem_cons, List.not_mem_nil, or_false] at hp
      rcases hp with rfl | rfl <;> rfl)
  simpa using h

/-- C3: evaluating `optimize_ensemble` on a concrete one-member ensemble:
`np.array` wraps the generator without running it, so zero
`model.predict` calls happen, and `len(model_preds)` raises `TypeError`
— no weight vector is ever produced. -/
theorem optimize_ensemble_concrete_crash :
    optimize_ensemble okSolver [constModel 1] [[0]] [1] sqErrMetric true
      = { result := .error .typeError, predictCalls := 0 } := rfl

/-- C6 (amended): `optimize_ensemble` contains no convergence check at
all; for every solver behaviour and every input it raises `TypeError`
(from `len` of the 0-d object array produced by `np.array` over a
generator) before the solver is ever invoked, so solver non-convergence
is never surfaced — and no warning channel exists in the function. -/
theorem optimize_ensemble_never_reports_convergence
    (solver : List ℚ → OptResult) (models : List (Mat → Vec))
    (x_test : Mat) (y_test : Vec) (metric : Vec → Vec → ℚ)
    (metric_max_better : Bool) :
    optimize_ensemble solver models x_test y_test metric metric_max_better
      = { result := .error .typeError, predictCalls := 0 } := rfl

/-- C6 counterexample: with a solver that reports non-convergence, the
call does not surface any convergence error — it fails with the
unrelated `TypeError` instead. -/
theorem optimize_ensemble_unconverged_not_surfaced :
    (optimize_ensemble failSolver [constModel 2] [[1]] [2] sqErrMetric
        false).result = .error PyErr.typeError ∧
    (optimize_ensemble failSolver [constModel 2] [[1]] [2] sqErrMetric
        false).result ≠ .error PyErr.convergenceError := by
  refine ⟨rfl, ?_⟩
  intro h
  simp only [optimize_ensemble, npArrayOfGen, npObjLen] at h
  exact PyErr.noConfusion (Except.error.inj h)

/-- C1 (the code evaluated under the claim's hypotheses): for every
model, data set, scalar metric, `folds ≥ 2` with enough rows, and
`repeats ≥ 1`, `cross_validate` does not return the mean score — it
raises `TypeError`, because `mean = np.mean(score)` is a 0-d scalar and
the return expression calls `len(mean)`. -/
theorem cross_validate_always_raises_typeError (π : Nat → Nat → List Nat)
    (model : ModelRule) (x : Mat) (y : Vec) (metric : Vec → Vec → ℚ)
    (folds repeats : Nat) (h1 : 1 ≤ repeats) (h2 : 2 ≤ folds)
    (h3 : folds ≤ x.length) :
    cross_validate π model x y metric folds repeats = .error .typeError := by
  unfold cross_validate
  rw [if_neg (by omega)]
  simp [cvReturn, npMean, npLen]

/-- C1 witness: a concrete valid call (2 rows, 2 folds, 1 repeat)
satisfies every hypothesis and raises `TypeError`. -/
theorem cross_validate_always_raises_typeError_witness :
    1 ≤ 1 ∧ 2 ≤ 2 ∧ 2 ≤ xTwo.length ∧
    cross_validate idPerm headTargetRule xTwo yTwo sqErrMetric 2 1
      = .error .typeError :=
  ⟨le_refl 1, le_refl 2, by decide,
   cross_validate_always_raises_typeError idPerm headTargetRule xTwo yTwo
     sqErrMetric 2 1 (le_refl 1) (le_refl 2) (by decide)⟩

/-- C9: cross-validation is deterministic — the only randomness source is
the seed-indexed PRNG oracle, so two runs whose oracles agree on every
(seed, length) pair produce identical loop states (hence identical
shuffles, identical fold assignments, identical prediction buffers and
identical per-repeat scores) and identical results. -/
theorem cross_validate_deterministic (π₁ π₂ : Nat → Nat → List Nat)
    (model : ModelRule) (x : Mat) (y : Vec) (metric : Vec → Vec → ℚ)
    (folds repeats : Nat) (h : ∀ s n, π₁ s n = π₂ s n) :
    cvLoop π₁ model metric folds repeats x y
      = cvLoop π₂ model metric folds repeats x y ∧
    cross_validate π₁ model x y metric folds repeats
      = cross_validate π₂ model x y metric folds repeats := by
  have hππ : π₁ = π₂ := funext fun s => funext fun n => h s n
  subst hππ
  exact ⟨rfl, rfl⟩

/-- C9 witness: two concrete runs with the same seed oracle coincide. -/
theorem cross_validate_deterministic_witness :
    cvLoop idPerm headTargetRule sqErrMetric 2 1 xTwo yTwo
      = cvLoop idPerm headTargetRule sqErrMetric 2 1 xTwo yTwo ∧
    cross_validate idPerm headTargetRule xTwo yTwo sqErrMetric 2 1
      = cross_validate idPerm headTargetRule xTwo yTwo sqErrMetric 2 1 :=
  cross_validate_deterministic idPerm idPerm headTargetRule xTwo yTwo
    sqErrMetric 2 1 (fun _ _ => rfl)

theorem gcvFoldStep_members (rule : ModelRule) (x : Mat) (y : Vec)
    (st : Vec × Heap × List ModelRef) (sp : List Nat × List Nat) :
    (gcvFoldStep rule x y st sp).2.2
      = st.2.2 ++ [copyShallow liveModel] := rfl

theorem gcvFoldStep_heapLen (rule : ModelRule) (x : Mat) (y : Vec)
    (st : Vec × Heap × List ModelRef) (sp : List Nat × List Nat) :
    (gcvFoldStep rule x y st sp).2.1.length = st.2.1.length := by
  simp [gcvFoldStep, heapFit]

theorem gcvFoldl_members (rule : ModelRule) (x : Mat) (y : Vec)
    (l : List (List Nat × List Nat)) :
    ∀ st : Vec × Heap × List ModelRef,
    (l.foldl (gcvFoldStep rule x y) st).2.2
      = st.2.2 ++ List.replicate l.length (copyShallow liveModel) := by
  induction l with
  | nil => intro st; simp
  | cons sp l ih =>
      intro st
      rw [List.foldl_cons, ih, gcvFoldStep_members]
      simp [List.replicate_succ]

theorem gcvFoldl_heapLen (rule : ModelRule) (x : Mat) (y : Vec)
    (l : List (List Nat × List Nat)) :
    ∀ st : Vec × Heap × List ModelRef,
    (l.foldl (gcvFoldStep rule x y) st).2.1.length = st.2.1.length := by
  induction l with
  | nil => intro st; rfl
  | cons sp l ih =>
      intro st
      rw [List.foldl_cons, ih, gcvFoldStep_heapLen]

theorem kfoldSplits_length (n k : Nat) : (kfoldSplits n k).length = k := by
  simp [kfoldSplits]

theorem gcvRepeat_members (π : Nat → Nat → List Nat) (rule : ModelRule)
    (metric : Vec → Vec → ℚ) (folds : Nat) (st : GcvState) (r : Nat) :
    (gcvRepeat π rule metric folds st r).members
      = st.members ++ List.replicate folds (copyShallow liveModel) := by
  simp only [gcvRepeat]
  rw [gcvFoldl_members, kfoldSplits_length]

theorem gcvRepeat_heapLen (π : Nat → Nat → List Nat) (rule : ModelRule)
    (metric : Vec → Vec → ℚ) (folds : Nat) (st : GcvState) (r : Nat) :
    (gcvRepeat π rule metric folds st r).heap.length = st.heap.length := by
  simp only [gcvRepeat]
  rw [gcvFoldl_heapLen]

theorem gcvIter_members (π : Nat → Nat → List Nat) (rule : ModelRule)
    (metric : Vec → Vec → ℚ) (folds : Nat) :
    ∀ (R : Nat) (st : GcvState),
    ((List.range R).foldl (gcvRepeat π rule metric folds) st).members
      = st.members ++ List.replicate (R * folds) (copyShallow liveModel) := by
  intro R
  induction R with
  | zero => intro st; simp
  | succ R ih =>
      intro st
      rw [List.range_succ, List.foldl_append, List.foldl_cons,
        List.foldl_nil, gcvRepeat_members, ih, Nat.succ_mul,
        List.replicate_add, List.append_assoc]

theorem gcvIter_heapLen (π : Nat → Nat → List Nat) (rule : ModelRule)
    (metric : Vec → Vec → ℚ) (folds : Nat) :
    ∀ (R : Nat) (st : GcvState),
    ((List.range R).foldl (gcvRepeat π rule metric folds) st).heap.length
      = st.heap.length := by
  intro R
  induction R with
  | zero => intro st; rfl
  | succ R ih =>
      intro st
      rw [List.range_succ, List.foldl_append, List.foldl_cons,
        List.foldl_nil, gcvRepeat_heapLen, ih]

theorem getD_set_zero (h : Heap) (v : Option (Mat × Vec))
    (hh : 0 < h.length) : (h.set 0 v).getD 0 none = v := by
  cases h with
  | nil => simp at hh
  | cons a t => rfl

/-- C5 (amended): after collection the ensemble's model list has exactly
`folds × repeats` entries, but each entry is the shallow copy
(`copy.copy`) of the live model: it references the very same nested
state cell, so every stored member aliases the live model, and a later
`fit` of the live model (for models whose `fit` updates nested state in
place) changes every stored member's predictions. -/
theorem gcv_members_are_shallow_aliases (π : Nat → Nat → List Nat)
    (rule : ModelRule) (metric : Vec → Vec → ℚ) (folds repeats : Nat)
    (x : Mat) (y : Vec) :
    (gcvRun π rule metric folds repeats x y).members.length
        = folds * repeats ∧
    (∀ m ∈ (gcvRun π rule metric folds repeats x y).members,
        m = liveModel) ∧
    (∀ m ∈ (gcvRun π rule metric folds repeats x y).members,
      ∀ (xt : Mat) (yt : Vec) (q : Mat),
        memberPredict rule
          (heapFit (gcvRun π rule metric folds repeats x y).heap
            liveModel xt yt) m q
          = rule (some (xt, yt)) q) := by
  have hmem : (gcvRun π rule metric folds repeats x y).members
      = List.replicate (repeats * folds) (copyShallow liveModel) := by
    unfold gcvRun
    rw [gcvIter_members]
    rfl
  have hheap : (gcvRun π rule metric folds repeats x y).heap.length = 1 := by
    unfold gcvRun
    rw [gcvIter_heapLen]
    rfl
  refine ⟨?_, ?_, ?_⟩
  · rw [hmem, List.length_replicate, Nat.mul_comm]
  · intro m hm
    rw [hmem] at hm
    exact List.eq_of_mem_replicate hm
  · intro m hm xt yt q
    rw [hmem] at hm
    have hm0 : m = liveModel := List.eq_of_mem_replicate hm
    subst hm0
    have h0 : 0 < (gcvRun π rule metric folds repeats x y).heap.length := by
      rw [hheap]
      exact Nat.one_pos
    show rule (((gcvRun π rule metric folds repeats x y).heap.set 0
        (some (xt, yt))).getD 0 none) q = rule (some (xt, yt)) q
    rw [getD_set_zero _ _ h0]

/-- C5 witness: a concrete run with `folds = 2`, `repeats = 1` stores
exactly `2 × 1` members. -/
theorem gcv_members_are_shallow_aliases_witness :
    (gcvRun idPerm headTargetRule sqErrMetric 2 1 xTwo yTwo).members.length
      = 2 * 1 :=
  (gcv_members_are_shallow_aliases idPerm headTargetRule sqErrMetric 2 1
    xTwo yTwo).1

/-- C5 counterexample: in a concrete collection run both stored members
are literally the live model's reference (shared state cell, not an
independent deep copy); the stored member predicts `[10]` after the run,
and refitting the live model on new data changes the same stored
member's prediction to `[99]`. -/
theorem gcv_stored_member_mutated_by_later_fit :
    (gcvRun idPerm headTargetRule sqErrMetric 2 1 xTwo yTwo).members
        = [liveModel, liveModel] ∧
    memberPredict headTargetRule
        (gcvRun idPerm headTargetRule sqErrMetric 2 1 xTwo yTwo).heap
        liveModel [[5]] = [10] ∧
    memberPredict headTargetRule
        (heapFit (gcvRun idPerm headTargetRule sqErrMetric 2 1 xTwo yTwo).heap
          liveModel [[9]] [99])
        liveModel [[5]] = [99] := by
  refine ⟨rfl, rfl, rfl⟩

/-- C2 (amended): `get_cross_validation_models` returns the ensemble
alone — exactly the first component of the spec's
`(Ensemble, mean_score)` pair — and its return value is never a pair
(the mean score is computed only for printing). -/
theorem gcv_returns_ensemble_only (π : Nat → Nat → List Nat)
    (rule : ModelRule) (x : Mat) (y : Vec) (metric : Vec → Vec → ℚ)
    (folds repeats : Nat) (h2 : 2 ≤ folds) (h3 : folds ≤ x.length) :
    get_cross_validation_models π rule x y metric folds repeats
      = .ok (.ensR
          (collect_ensemble_spec π rule x y metric folds repeats).1) ∧
    Except.map PyRet.isPair
        (get_cross_validation_models π rule x y metric folds repeats)
      = .ok false := by
  unfold get_cross_validation_models collect_ensemble_spec
  rw [if_neg (by omega)]
  exact ⟨rfl, rfl⟩

/-- C2 witness: a concrete valid call returns exactly the ensemble
component of the spec's pair. -/
theorem gcv_returns_ensemble_only_witness :
    2 ≤ 2 ∧ 2 ≤ xTwo.length ∧
    get_cross_validation_models idPerm headTargetRule xTwo yTwo sqErrMetric
        2 1
      = .ok (.ensR (collect_ensemble_spec idPerm headTargetRule xTwo yTwo
          sqErrMetric 2 1).1) :=
  ⟨le_refl 2, by decide,
   (gcv_returns_ensemble_only idPerm headTargetRule xTwo yTwo sqErrMetric
     2 1 (le_refl 2) (by decide)).1⟩

/-- C2 counterexample: at a concrete valid input the returned value is
not an `(Ensemble, mean_score)` pair. -/
theorem gcv_return_is_not_a_pair :
    Except.map PyRet.isPair
        (get_cross_validation_models idPerm zeroRule xTwo yTwo sqErrMetric
          2 1)
      = .ok false := by
  unfold get_cross_validation_models
  rw [if_neg (by decide)]
  rfl

theorem foldl_set_length (l : List (Nat × ℚ)) :
    ∀ b : Vec, (l.foldl (fun b iv => b.set iv.1 iv.2) b).length = b.length := by
  induction l with
  | nil => intro b; rfl
  | cons p l ih => intro b; rw [List.foldl_cons, ih, List.length_set]

theorem writeAtIdx_length (buf : Vec) (idxs : List Nat) (vals : Vec) :
    (writeAtIdx buf idxs vals).length = buf.length :=
  foldl_set_length _ _

theorem writeAtIdx_range' (vals : Vec) :
    ∀ (s : Nat) (buf : Vec), s + vals.length ≤ buf.length →
    writeAtIdx buf (List.range' s vals.length) vals
      = buf.take s ++ vals ++ buf.drop (s + vals.length) := by
  induction vals with
  | nil =>
      intro s buf h
      show buf = buf.take s ++ [] ++ buf.drop (s + 0)
      simp
  | cons v vs ih =>
      intro s buf h
      have hlc : (v :: vs).length = vs.length + 1 := rfl
      have hs : s < buf.length := by
        rw [hlc] at h
        omega
      have hsetlen : (buf.set s v).length = buf.length := List.length_set buf s v
      have hstep : writeAtIdx buf (List.range' s ((v :: vs).length)) (v :: vs)
          = writeAtIdx (buf.set s v) (List.range' (s + 1) vs.length) vs := by
        rw [hlc, List.range'_succ]
        rfl
      rw [hstep, ih (s + 1) (buf.set s v) (by rw [hsetlen]; rw [hlc] at h; omega)]
      rw [List.set_eq_take_cons_drop v hs]
      have hAlen : (buf.take s).length = s := by
        rw [List.length_take]
        omega
      have htake : (buf.take s ++ v :: buf.drop (s + 1)).take (s + 1)
          = buf.take s ++ [v] := by
        rw [List.take_append_eq_append_take, hAlen,
          List.take_of_length_le (by rw [hAlen]; omega)]
        have : s + 1 - s = 1 := by omega
        rw [this]
        rfl
      have hdrop : (buf.take s ++ v :: buf.drop (s + 1)).drop
            (s + 1 + vs.length)
          = buf.drop (s + (vs.length + 1)) := by
        rw [List.drop_append_eq_append_drop, hAlen,
          List.drop_eq_nil_of_le (by rw [hAlen]; omega)]
        have h1 : s + 1 + vs.length - s = vs.length + 1 := by omega
        rw [h1, List.nil_append]
        show (buf.drop (s + 1)).drop vs.length = _
        rw [List.drop_drop]
        congr 1
        omega
      rw [htake, hdrop]
      simp

theorem foldStart_succ (n k i : Nat) :
    foldStart n k (i + 1) = foldStart n k i + foldSize n k i := by
  unfold foldStart foldSize
  rcases Nat.lt_or_ge i (n % k) with h | h
  · rw [if_pos h, Nat.succ_mul, min_eq_left (by omega),
      min_eq_left (by omega)]
    omega
  · rw [if_neg (by omega), Nat.succ_mul, min_eq_right h,
      min_eq_right (by omega)]
    omega

theorem foldStart_self (n k : Nat) (hk : 0 < k) : foldStart n k k = n := by
  unfold foldStart
  have hm : n % k < k := Nat.mod_lt _ hk
  rw [min_eq_right (le_of_lt hm)]
  have := Nat.div_add_mod n k
  omega

theorem foldStart_mono (n k : Nat) :
    ∀ {i j : Nat}, i ≤ j → foldStart n k i ≤ foldStart n k j := by
  intro i j hij
  induction j with
  | zero =>
      have : i = 0 := by omega
      subst this
      exact le_refl _
  | succ j ih =>
      rcases Nat.lt_or_ge i (j + 1) with h | h
      · have h1 := ih (by omega)
        rw [foldStart_succ]
        omega
      · have : i = j + 1 := by omega
        subst this
        exact le_refl _

theorem foldStart_le (n k : Nat) (hk : 0 < k) (i : Nat) (hik : i ≤ k) :
    foldStart n k i ≤ n :=
  (foldStart_mono n k hik).trans (le_of_eq (foldStart_self n k hk))

theorem foldPred_length (model : ModelRule) (n k : Nat) (x : Mat) (y : Vec)
    (i : Nat) (hmodel : ∀ st q, (model st q).length = q.length) :
    (foldPred model n k x y i).length = foldSize n k i := by
  unfold foldPred
  rw [hmodel]
  simp [gather, testIdx]

theorem foldPass_suffix (model : ModelRule) (x : Mat) (y : Vec) (k : Nat)
    (hk : 0 < k) (hmodel : ∀ st q, (model st q).length = q.length) :
    ∀ (j i : Nat) (buf : Vec), i + j = k → buf.length = x.length →
    ((List.range' i j).map
        (fun t => (trainIdx x.length k t, testIdx x.length k t))).foldl
        (foldStep model x y) buf
      = buf.take (foldStart x.length k i)
        ++ ((List.range' i j).map (foldPred model x.length k x y)).flatten := by
  intro j
  induction j with
  | zero =>
      intro i buf hik hbuf
      have hi : i = k := by omega
      show buf = buf.take (foldStart x.length k i) ++ List.flatten []
      rw [hi, foldStart_self _ _ hk, ← hbuf, List.take_length]
      simp
  | succ j ih =>
      intro i buf hik hbuf
      have hi1k : i + 1 ≤ k := by omega
      have hvlen : (foldPred model x.length k x y i).length
          = foldSize x.length k i := foldPred_length model _ k x y i hmodel
      have hbound : foldStart x.length k i + foldSize x.length k i
          ≤ buf.length := by
        rw [hbuf, ← foldStart_succ]
        exact foldStart_le x.length k hk _ hi1k
      have hstep : foldStep model x y buf
            (trainIdx x.length k i, testIdx x.length k i)
          = buf.take (foldStart x.length k i)
            ++ foldPred model x.length k x y i
            ++ buf.drop (foldStart x.length k i + foldSize x.length k i) := by
        show writeAtIdx buf (testIdx x.length k i)
            (foldPred model x.length k x y i) = _
        unfold testIdx
        rw [← hvlen, writeAtIdx_range' _ _ _ (by rw [hvlen]; exact hbound),
          hvlen]
      have hb1len : (buf.take (foldStart x.length k i)
            ++ foldPred model x.length k x y i
            ++ buf.drop (foldStart x.length k i + foldSize x.length k i)).length
          = x.length := by
        simp only [List.length_append, List.length_take, List.length_drop,
          hvlen, hbuf]
        have h1 := foldStart_le x.length k hk i (by omega)
        omega
      rw [List.range'_succ, List.map_cons, List.foldl_cons, hstep,
        ih (i + 1) _ (by omega) hb1len]
      have hAlen : ((buf.take (foldStart x.length k i)
            ++ foldPred model x.length k x y i)).length
          = foldStart x.length k (i + 1) := by
        simp only [List.length_append, List.length_take, hvlen,
          foldStart_succ]
        have h1 := foldStart_le x.length k hk i (by omega)
        omega
      have htake : (buf.take (foldStart x.length k i)
            ++ foldPred model x.length k x y i
            ++ buf.drop (foldStart x.length k i + foldSize x.length k i)).take
            (foldStart x.length k (i + 1))
          = buf.take (foldStart x.length k i)
            ++ foldPred model x.length k x y i := by
        rw [List.take_append_eq_append_take, ← hAlen, List.take_length,
          Nat.sub_self, List.take_zero, List.append_nil]
      rw [htake, List.map_cons, List.flatten_cons, ← List.append_assoc]

theorem foldPass_eq_flatten (model : ModelRule) (folds : Nat) (x : Mat)
    (y : Vec) (buf : Vec) (hk : 0 < folds)
    (hmodel : ∀ st q, (model st q).length = q.length)
    (hbuf : buf.length = x.length) :
    foldPass model folds x y buf = allFoldPreds model folds x y := by
  unfold foldPass allFoldPreds kfoldSplits
  rw [List.range_eq_range']
  have h := foldPass_suffix model x y folds hk hmodel folds 0 buf
    (by omega) hbuf
  simpa [foldStart] using h

theorem cvIter_succ (π : Nat → Nat → List Nat) (model : ModelRule)
    (metric : Vec → Vec → ℚ) (folds : Nat) (st : CVState) (R : Nat) :
    cvIter π model metric folds st (R + 1)
      = cvRepeat π model metric folds (cvIter π model metric folds st R) R := by
  unfold cvIter
  rw [List.range_succ, List.foldl_append, List.foldl_cons, List.foldl_nil]

theorem cvIter_xy (π : Nat → Nat → List Nat) (model : ModelRule)
    (metric : Vec → Vec → ℚ) (folds : Nat) (x₀ : Mat) (y₀ : Vec) :
    ∀ (R : Nat) (st : CVState), st.x = x₀ → st.y = y₀ →
    ((cvIter π model metric folds st R).x,
     (cvIter π model metric folds st R).y)
      = composedShuffle π x₀ y₀ R := by
  intro R
  induction R with
  | zero =>
      intro st hx hy
      simp [cvIter, composedShuffle, hx, hy]
  | succ R ih =>
      intro st hx hy
      have hIH := ih st hx hy
      have h1 : (cvIter π model metric folds st R).x
          = (composedShuffle π x₀ y₀ R).1 := congrArg Prod.fst hIH
      have h2 : (cvIter π model metric folds st R).y
          = (composedShuffle π x₀ y₀ R).2 := congrArg Prod.snd hIH
      rw [cvIter_succ]
      show ((shuffleXY π R (cvIter π model metric folds st R).x
              (cvIter π model metric folds st R).y).1,
            (shuffleXY π R (cvIter π model metric folds st R).x
              (cvIter π model metric folds st R).y).2)
          = shuffleXY π R (composedShuffle π x₀ y₀ R).1
              (composedShuffle π x₀ y₀ R).2
      rw [h1, h2]

theorem shuffleXY_lengths (π : Nat → Nat → List Nat) (seed : Nat) (x : Mat)
    (y : Vec) (hπ : (π seed x.length).Perm (List.range x.length)) :
    (shuffleXY π seed x y).1.length = x.length ∧
    (shuffleXY π seed x y).2.length = x.length := by
  have hl : (π seed x.length).length = x.length := by
    rw [hπ.length_eq, List.length_range]
  constructor <;> simp [shuffleXY, gather, hl]

theorem foldl_foldStep_length (model : ModelRule) (x : Mat) (y : Vec)
    (l : List (List Nat × List Nat)) :
    ∀ buf : Vec, (l.foldl (foldStep model x y) buf).length = buf.length := by
  induction l with
  | nil => intro buf; rfl
  | cons sp l ih =>
      intro buf
      rw [List.foldl_cons, ih]
      exact writeAtIdx_length _ _ _

theorem foldPass_length (model : ModelRule) (folds : Nat) (x : Mat) (y : Vec)
    (buf : Vec) : (foldPass model folds x y buf).length = buf.length :=
  foldl_foldStep_length model x y _ buf

theorem cvIter_invariant (π : Nat → Nat → List Nat) (model : ModelRule)
    (metric : Vec → Vec → ℚ) (folds : Nat) (n : Nat)
    (hπ : ∀ s m, (π s m).Perm (List.range m)) :
    ∀ (R : Nat) (st : CVState), st.x.length = n → st.y.length = n →
    (cvIter π model metric folds st R).x.length = n ∧
    (cvIter π model metric folds st R).y.length = n ∧
    (cvIter π model metric folds st R).buf.length = st.buf.length ∧
    (cvIter π model metric folds st R).scores.length = st.scores.length := by
  intro R
  induction R with
  | zero => intro st hx hy; exact ⟨hx, hy, rfl, rfl⟩
  | succ R ih =>
      intro st hx hy
      obtain ⟨h1, h2, h3, h4⟩ := ih st hx hy
      rw [cvIter_succ]
      have hsh := shuffleXY_lengths π R (cvIter π model metric folds st R).x
        (cvIter π model metric folds st R).y (hπ R _)
      refine ⟨?_, ?_, ?_, ?_⟩
      · show (shuffleXY π R (cvIter π model metric folds st R).x
            (cvIter π model metric folds st R).y).1.length = n
        rw [hsh.1, h1]
      · show (shuffleXY π R (cvIter π model metric folds st R).x
            (cvIter π model metric folds st R).y).2.length = n
        rw [hsh.2, h1]
      · show (foldPass model folds
            (shuffleXY π R (cvIter π model metric folds st R).x
              (cvIter π model metric folds st R).y).1
            (shuffleXY π R (cvIter π model metric folds st R).x
              (cvIter π model metric folds st R).y).2
            (cvIter π model metric folds st R).buf).length
          = st.buf.length
        rw [foldPass_length, h3]
      · show ((cvIter π model metric folds st R).scores.set R _).length
          = st.scores.length
        rw [List.length_set, h4]

theorem getD_set_ne_q (l : List ℚ) (i j : Nat) (v : ℚ) (h : i ≠ j) :
    (l.set i v).getD j 0 = l.getD j 0 := by
  simp [List.getD_eq_getElem?_getD, List.getElem?_set_ne h]

theorem getD_set_self_q (l : List ℚ) (i : Nat) (v : ℚ) (h : i < l.length) :
    (l.set i v).getD i 0 = v := by
  simp [List.getD_eq_getElem?_getD, List.getElem?_set_eq_of_lt v h]

theorem cvIter_scores_stable (π : Nat → Nat → List Nat) (model : ModelRule)
    (metric : Vec → Vec → ℚ) (folds : Nat) :
    ∀ (R : Nat) (st : CVState) (r : Nat), r < R →
    (cvIter π model metric folds st R).scores.getD r 0
      = (cvIter π model metric folds st (r + 1)).scores.getD r 0 := by
  intro R
  induction R with
  | zero => intro st r h; omega
  | succ R ih =>
      intro st r h
      rcases Nat.lt_or_ge r R with h' | h'
      · rw [cvIter_succ]
        show ((cvIter π model metric folds st R).scores.set R _).getD r 0 = _
        rw [getD_set_ne_q _ _ _ _ (by omega)]
        exact ih st r h'
      · have : r = R := by omega
        subst this
        rfl

theorem gcvIter_succ (π : Nat → Nat → List Nat) (rule : ModelRule)
    (metric : Vec → Vec → ℚ) (folds : Nat) (st : GcvState) (R : Nat) :
    (List.range (R + 1)).foldl (gcvRepeat π rule metric folds) st
      = gcvRepeat π rule metric folds
          ((List.range R).foldl (gcvRepeat π rule metric folds) st) R := by
  rw [List.range_succ, List.foldl_append, List.foldl_cons, List.foldl_nil]

theorem gcvIter_xy (π : Nat → Nat → List Nat) (rule : ModelRule)
    (metric : Vec → Vec → ℚ) (folds : Nat) (x₀ : Mat) (y₀ : Vec) :
    ∀ (R : Nat) (st : GcvState), st.x = x₀ → st.y = y₀ →
    (((List.range R).foldl (gcvRepeat π rule metric folds) st).x,
     ((List.range R).foldl (gcvRepeat π rule metric folds) st).y)
      = composedShuffle π x₀ y₀ R := by
  intro R
  induction R with
  | zero =>
      intro st hx hy
      simp [composedShuffle, hx, hy]
  | succ R ih =>
      intro st hx hy
      have hIH := ih st hx hy
      have h1 : ((List.range R).foldl (gcvRepeat π rule metric folds) st).x
          = (composedShuffle π x₀ y₀ R).1 := congrArg Prod.fst hIH
      have h2 : ((List.range R).foldl (gcvRepeat π rule metric folds) st).y
          = (composedShuffle π x₀ y₀ R).2 := congrArg Prod.snd hIH
      rw [gcvIter_succ]
      show ((shuffleXY π R
              ((List.range R).foldl (gcvRepeat π rule metric folds) st).x
              ((List.range R).foldl (gcvRepeat π rule metric folds) st).y).1,
            (shuffleXY π R
              ((List.range R).foldl (gcvRepeat π rule metric folds) st).x
              ((List.range R).foldl (gcvRepeat π rule metric folds) st).y).2)
          = shuffleXY π R (composedShuffle π x₀ y₀ R).1
              (composedShuffle π x₀ y₀ R).2
      rw [h1, h2]

theorem gcvFoldStep_buf (rule : ModelRule) (x : Mat) (y : Vec)
    (st : Vec × Heap × List ModelRef) (sp : List Nat × List Nat)
    (hh : 0 < st.2.1.length) :
    (gcvFoldStep rule x y st sp).1 = foldStep rule x y st.1 sp := by
  show writeAtIdx st.1 sp.2
      (memberPredict rule
        (heapFit st.2.1 liveModel (gather x [] sp.1) (gather y 0 sp.1))
        liveModel (gather x [] sp.2))
    = writeAtIdx st.1 sp.2
      (rule (some (gather x [] sp.1, gather y 0 sp.1)) (gather x [] sp.2))
  congr 1
  show rule
      ((st.2.1.set 0 (some (gather x [] sp.1, gather y 0 sp.1))).getD 0 none)
      (gather x [] sp.2)
    = rule (some (gather x [] sp.1, gather y 0 sp.1)) (gather x [] sp.2)
  rw [getD_set_zero _ _ hh]

theorem gcvFoldl_buf (rule : ModelRule) (x : Mat) (y : Vec)
    (l : List (List Nat × List Nat)) :
    ∀ st : Vec × Heap × List ModelRef, 0 < st.2.1.length →
    (l.foldl (gcvFoldStep rule x y) st).1
      = l.foldl (foldStep rule x y) st.1 := by
  induction l with
  | nil => intro st hh; rfl
  | cons sp l ih =>
      intro st hh
      rw [List.foldl_cons, List.foldl_cons,
        ih (gcvFoldStep rule x y st sp)
          (by rw [gcvFoldStep_heapLen]; exact hh),
        gcvFoldStep_buf rule x y st sp hh]

theorem gcvFoldl_bufLen (rule : ModelRule) (x : Mat) (y : Vec)
    (l : List (List Nat × List Nat)) :
    ∀ st : Vec × Heap × List ModelRef,
    (l.foldl (gcvFoldStep rule x y) st).1.length = st.1.length := by
  induction l with
  | nil => intro st; rfl
  | cons sp l ih =>
      intro st
      rw [List.foldl_cons, ih]
      exact writeAtIdx_length _ _ _

theorem gcvIter_invariant (π : Nat → Nat → List Nat) (rule : ModelRule)
    (metric : Vec → Vec → ℚ) (folds : Nat) (n : Nat)
    (hπ : ∀ s m, (π s m).Perm (List.range m)) :
    ∀ (R : Nat) (st : GcvState), st.x.length = n → st.y.length = n →
    ((List.range R).foldl (gcvRepeat π rule metric folds) st).x.length = n ∧
    ((List.range R).foldl (gcvRepeat π rule metric folds) st).y.length = n ∧
    ((List.range R).foldl (gcvRepeat π rule metric folds) st).buf.length
        = st.buf.length ∧
    ((List.range R).foldl (gcvRepeat π rule metric folds) st).scores.length
        = st.scores.length := by
  intro R
  induction R with
  | zero => intro st hx hy; exact ⟨hx, hy, rfl, rfl⟩
  | succ R ih =>
      intro st hx hy
      obtain ⟨h1, h2, h3, h4⟩ := ih st hx hy
      have hsh := shuffleXY_lengths π R
        ((List.range R).foldl (gcvRepeat π rule metric folds) st).x
        ((List.range R).foldl (gcvRepeat π rule metric folds) st).y (hπ R _)
      rw [gcvIter_succ]
      simp only [gcvRepeat]
      refine ⟨?_, ?_, ?_, ?_⟩
      · rw [hsh.1, h1]
      · rw [hsh.2, h1]
      · rw [gcvFoldl_bufLen, h3]
      · rw [List.length_set, h4]

theorem gcvIter_scores_stable (π : Nat → Nat → List Nat) (rule : ModelRule)
    (metric : Vec → Vec → ℚ) (folds : Nat) :
    ∀ (R : Nat) (st : GcvState) (r : Nat), r < R →
    ((List.range R).foldl (gcvRepeat π rule metric folds) st).scores.getD r 0
      = ((List.range (r + 1)).foldl
          (gcvRepeat π rule metric folds) st).scores.getD r 0 := by
  intro R
  induction R with
  | zero => intro st r h; omega
  | succ R ih =>
      intro st r h
      rcases Nat.lt_or_ge r R with h' | h'
      · rw [gcvIter_succ]
        show (((List.range R).foldl
            (gcvRepeat π rule metric folds) st).scores.set R _).getD r 0 = _
        rw [getD_set_ne_q _ _ _ _ (by omega)]
        exact ih st r h'
      · have : r = R := by omega
        subst this
        rfl

theorem foldl_foldStep_eq_flatten (model : ModelRule) (folds : Nat)
    (x : Mat) (y : Vec) (buf : Vec) (hk : 0 < folds)
    (hmodel : ∀ st q, (model st q).length = q.length)
    (hbuf : buf.length = x.length) :
    (kfoldSplits x.length folds).foldl (foldStep model x y) buf
      = allFoldPreds model folds x y :=
  foldPass_eq_flatten model folds x y buf hk hmodel hbuf

/-- C10: in both cross-validation loops — `cross_validate`
(lines 115-127, embedded as `cvLoop`) and `get_cross_validation_models`
(lines 167-180, embedded as `gcvRun`) — the repeat loop shuffles
cumulatively: the loop re-binds `x, y`, so the data order used in repeat
`r` is the composition of the seed-`0 … r` shuffles applied to the
original input, and the score of repeat `r` is the metric applied to the
fold-by-fold prediction buffer and the target vector in exactly that
cumulative order (not the caller's original row order). -/
theorem cv_repeat_uses_cumulative_shuffle (π : Nat → Nat → List Nat)
    (model : ModelRule) (metric : Vec → Vec → ℚ) (folds repeats r : Nat)
    (x₀ : Mat) (y₀ : Vec)
    (hπ : ∀ s m, (π s m).Perm (List.range m))
    (hmodel : ∀ st q, (model st q).length = q.length)
    (h2 : 2 ≤ folds) (hkn : folds ≤ x₀.length)
    (hy : y₀.length = x₀.length) (hr : r < repeats) :
    ((cvLoop π model metric folds (r + 1) x₀ y₀).x
        = (composedShuffle π x₀ y₀ (r + 1)).1 ∧
     (cvLoop π model metric folds (r + 1) x₀ y₀).y
        = (composedShuffle π x₀ y₀ (r + 1)).2 ∧
     (cvLoop π model metric folds repeats x₀ y₀).scores.getD r 0
       = metric
           (allFoldPreds model folds (composedShuffle π x₀ y₀ (r + 1)).1
             (composedShuffle π x₀ y₀ (r + 1)).2)
           (composedShuffle π x₀ y₀ (r + 1)).2) ∧
    ((gcvRun π model metric folds (r + 1) x₀ y₀).x
        = (composedShuffle π x₀ y₀ (r + 1)).1 ∧
     (gcvRun π model metric folds (r + 1) x₀ y₀).y
        = (composedShuffle π x₀ y₀ (r + 1)).2 ∧
     (gcvRun π model metric folds repeats x₀ y₀).scores.getD r 0
       = metric
           (allFoldPreds model folds (composedShuffle π x₀ y₀ (r + 1)).1
             (composedShuffle π x₀ y₀ (r + 1)).2)
           (composedShuffle π x₀ y₀ (r + 1)).2) := by
  constructor
  · -- the `cross_validate` loop
    have hxyA := cvIter_xy π model metric folds x₀ y₀ (r + 1)
      (cvInit (r + 1) x₀ y₀) rfl rfl
    refine ⟨congrArg Prod.fst hxyA, congrArg Prod.snd hxyA, ?_⟩
    have hst0x : (cvInit repeats x₀ y₀).x.length = x₀.length := rfl
    have hst0y : (cvInit repeats x₀ y₀).y.length = x₀.length := hy
    obtain ⟨hx1, hy1, hb1, hs1⟩ := cvIter_invariant π model metric folds
      x₀.length hπ r (cvInit repeats x₀ y₀) hst0x hst0y
    have hxyB := cvIter_xy π model metric folds x₀ y₀ r
      (cvInit repeats x₀ y₀) rfl rfl
    have hbx : (cvIter π model metric folds (cvInit repeats x₀ y₀) r).x
        = (composedShuffle π x₀ y₀ r).1 := congrArg Prod.fst hxyB
    have hby : (cvIter π model metric folds (cvInit repeats x₀ y₀) r).y
        = (composedShuffle π x₀ y₀ r).2 := congrArg Prod.snd hxyB
    have hshuf := shuffleXY_lengths π r
      (cvIter π model metric folds (cvInit repeats x₀ y₀) r).x
      (cvIter π model metric folds (cvInit repeats x₀ y₀) r).y (hπ r _)
    have hblen : (cvIter π model metric folds
        (cvInit repeats x₀ y₀) r).buf.length = x₀.length := by
      rw [hb1]
      show (List.replicate y₀.length (0 : ℚ)).length = x₀.length
      rw [List.length_replicate, hy]
    have hscorelen : r < (cvIter π model metric folds
        (cvInit repeats x₀ y₀) r).scores.length := by
      rw [hs1]
      show r < (List.replicate repeats (0 : ℚ)).length
      rw [List.length_replicate]
      exact hr
    have hxy1 : shuffleXY π r
          (cvIter π model metric folds (cvInit repeats x₀ y₀) r).x
          (cvIter π model metric folds (cvInit repeats x₀ y₀) r).y
        = composedShuffle π x₀ y₀ (r + 1) := by
      rw [hbx, hby]
      rfl
    have hX1 := congrArg Prod.fst hxy1
    have hX2 := congrArg Prod.snd hxy1
    show (cvIter π model metric folds (cvInit repeats x₀ y₀)
        repeats).scores.getD r 0 = _
    rw [cvIter_scores_stable π model metric folds repeats
      (cvInit repeats x₀ y₀) r hr, cvIter_succ]
    show ((cvIter π model metric folds (cvInit repeats x₀ y₀) r).scores.set r
        (metric
          (foldPass model folds
            (shuffleXY π r
              (cvIter π model metric folds (cvInit repeats x₀ y₀) r).x
              (cvIter π model metric folds (cvInit repeats x₀ y₀) r).y).1
            (shuffleXY π r
              (cvIter π model metric folds (cvInit repeats x₀ y₀) r).x
              (cvIter π model metric folds (cvInit repeats x₀ y₀) r).y).2
            (cvIter π model metric folds (cvInit repeats x₀ y₀) r).buf)
          (shuffleXY π r
            (cvIter π model metric folds (cvInit repeats x₀ y₀) r).x
            (cvIter π model metric folds (cvInit repeats x₀ y₀) r).y).2)).getD
        r 0 = _
    rw [getD_set_self_q _ _ _ hscorelen]
    rw [foldPass_eq_flatten model folds _ _ _ (by omega) hmodel
      (by rw [hblen, hshuf.1, hx1])]
    rw [hX1, hX2]
  · -- the `get_cross_validation_models` loop
    have hxyA := gcvIter_xy π model metric folds x₀ y₀ (r + 1)
      ⟨x₀, y₀, List.replicate y₀.length 0, List.replicate (r + 1) 0,
        [none], []⟩ rfl rfl
    refine ⟨congrArg Prod.fst hxyA, congrArg Prod.snd hxyA, ?_⟩
    have hst0x : (⟨x₀, y₀, List.replicate y₀.length 0,
        List.replicate repeats 0, [none], []⟩ : GcvState).x.length
        = x₀.length := rfl
    have hst0y : (⟨x₀, y₀, List.replicate y₀.length 0,
        List.replicate repeats 0, [none], []⟩ : GcvState).y.length
        = x₀.length := hy
    obtain ⟨hx1, hy1, hb1, hs1⟩ := gcvIter_invariant π model metric folds
      x₀.length hπ r
      ⟨x₀, y₀, List.replicate y₀.length 0, List.replicate repeats 0,
        [none], []⟩ hst0x hst0y
    have hxyB := gcvIter_xy π model metric folds x₀ y₀ r
      ⟨x₀, y₀, List.replicate y₀.length 0, List.replicate repeats 0,
        [none], []⟩ rfl rfl
    have hbx : ((List.range r).foldl (gcvRepeat π model metric folds)
          ⟨x₀, y₀, List.replicate y₀.length 0, List.replicate repeats 0,
            [none], []⟩).x
        = (composedShuffle π x₀ y₀ r).1 := congrArg Prod.fst hxyB
    have hby : ((List.range r).foldl (gcvRepeat π model metric folds)
          ⟨x₀, y₀, List.replicate y₀.length 0, List.replicate repeats 0,
            [none], []⟩).y
        = (composedShuffle π x₀ y₀ r).2 := congrArg Prod.snd hxyB
    have hshuf := shuffleXY_lengths π r
      ((List.range r).foldl (gcvRepeat π model metric folds)
        ⟨x₀, y₀, List.replicate y₀.length 0, List.replicate repeats 0,
          [none], []⟩).x
      ((List.range r).foldl (gcvRepeat π model metric folds)
        ⟨x₀, y₀, List.replicate y₀.length 0, List.replicate repeats 0,
          [none], []⟩).y (hπ r _)
    have hblen : ((List.range r).foldl (gcvRepeat π model metric folds)
          ⟨x₀, y₀, List.replicate y₀.length 0, List.replicate repeats 0,
            [none], []⟩).buf.length = x₀.length := by
      rw [hb1]
      show (List.replicate y₀.length (0 : ℚ)).length = x₀.length
      rw [List.length_replicate, hy]
    have hheap : 0 < ((List.range r).foldl (gcvRepeat π model metric folds)
          ⟨x₀, y₀, List.replicate y₀.length 0, List.replicate repeats 0,
            [none], []⟩).heap.length := by
      rw [gcvIter_heapLen]
      show 0 < ([none] : Heap).length
      simp
    have hscorelen : r < ((List.range r).foldl (gcvRepeat π model metric folds)
          ⟨x₀, y₀, List.replicate y₀.length 0, List.replicate repeats 0,
            [none], []⟩).scores.length := by
      rw [hs1]
      show r < (List.replicate repeats (0 : ℚ)).length
      rw [List.length_replicate]
      exact hr
    have hxy1 : shuffleXY π r
          ((List.range r).foldl (gcvRepeat π model metric folds)
            ⟨x₀, y₀, List.replicate y₀.length 0, List.replicate repeats 0,
              [none], []⟩).x
          ((List.range r).foldl (gcvRepeat π model metric folds)
            ⟨x₀, y₀, List.replicate y₀.length 0, List.replicate repeats 0,
              [none], []⟩).y
        = composedShuffle π x₀ y₀ (r + 1) := by
      rw [hbx, hby]
      rfl
    have hX1 := congrArg Prod.fst hxy1
    have hX2 := congrArg Prod.snd hxy1
    show ((List.range repeats).foldl (gcvRepeat π model metric folds)
        ⟨x₀, y₀, List.replicate y₀.length 0, List.replicate repeats 0,
          [none], []⟩).scores.getD r 0 = _
    rw [gcvIter_scores_stable π model metric folds repeats
      ⟨x₀, y₀, List.replicate y₀.length 0, List.replicate repeats 0,
        [none], []⟩ r hr, gcvIter_succ]
    simp only [gcvRepeat]
    rw [getD_set_self_q _ _ _ hscorelen]
    rw [gcvFoldl_buf _ _ _ _ _ hheap]
    rw [foldl_foldStep_eq_flatten model folds _ _ _ (by omega) hmodel
      (by rw [hblen, hshuf.1, hx1])]
    rw [hX1, hX2]

/-- C10 witness: a concrete run (2 rows, 2 folds, 1 repeat, identity
shuffle oracle) satisfies every hypothesis, and in both loops the
repeat-0 score is the metric of the fold-by-fold prediction buffer
against the cumulative-order targets. -/
theorem cv_repeat_uses_cumulative_shuffle_witness :
    (cvLoop idPerm headTargetRule sqErrMetric 2 1 xTwo yTwo).scores.getD 0 0
      = sqErrMetric
          (allFoldPreds headTargetRule 2
            (composedShuffle idPerm xTwo yTwo 1).1
            (composedShuffle idPerm xTwo yTwo 1).2)
          (composedShuffle idPerm xTwo yTwo 1).2 ∧
    (gcvRun idPerm headTargetRule sqErrMetric 2 1 xTwo yTwo).scores.getD 0 0
      = sqErrMetric
          (allFoldPreds headTargetRule 2
            (composedShuffle idPerm xTwo yTwo 1).1
            (composedShuffle idPerm xTwo yTwo 1).2)
          (composedShuffle idPerm xTwo yTwo 1).2 :=
  ⟨(cv_repeat_uses_cumulative_shuffle idPerm headTargetRule sqErrMetric 2 1 0
      xTwo yTwo (fun _ m => List.Perm.refl _)
      (fun st q => by simp [headTargetRule]) (le_refl 2) (by decide)
      (by decide) Nat.one_pos).1.2.2,
   (cv_repeat_uses_cumulative_shuffle idPerm headTargetRule sqErrMetric 2 1 0
      xTwo yTwo (fun _ m => List.Perm.refl _)
      (fun st q => by simp [headTargetRule]) (le_refl 2) (by decide)
      (by decide) Nat.one_pos).2.2.2⟩
